import Mathlib

/-!
Verification of docusaurus-plugin-mdc-rules against its specification.

The TypeScript sources (src/metadata-parser.ts, src/link-resolver.ts,
src/content-loader.ts, src/sidebar-generator.ts) are shallowly embedded below.
JavaScript strings are modelled as `List Char` (`Str`), JavaScript objects
with string keys as insertion-ordered association lists (`MetaObj`), and the
heterogeneous metadata values produced by the parser as the inductive
`MetaValue` (decimal float literals are modelled exactly, as rationals).
All definitions are executable so that concrete scenarios can be settled
by evaluation inside the kernel.
-/

namespace MdcRules

/-- JavaScript strings, modelled as lists of characters. -/
abbrev Str := List Char

/-- Embed a Lean string literal into the model. -/
def str (s : String) : Str := s.data

/-! ### Basic string operations (models of the JS string API) -/

/-- `s.startsWith(pre)`: `startsWithS s pre` is true when `pre` is a leading
segment of `s`. -/
def startsWithS : Str → Str → Bool
  | _, [] => true
  | [], _ :: _ => false
  | a :: as, b :: bs => a = b && startsWithS as bs

/-- `s.endsWith(suf)`. -/
def endsWithS (s suf : Str) : Bool := startsWithS s.reverse suf.reverse

/-- `s.includes(sub)`: substring occurrence test. -/
def containsSub : Str → Str → Bool
  | [], sub => startsWithS [] sub
  | c :: rest, sub => startsWithS (c :: rest) sub || containsSub rest sub

/-- Index of the first occurrence of `sub` in `s` (JS `indexOf` without the
`-1` convention: `none` when absent). -/
def indexOfSub : Str → Str → Option Nat
  | [], sub => if startsWithS [] sub then some 0 else none
  | c :: rest, sub =>
    if startsWithS (c :: rest) sub then some 0
    else (indexOfSub rest sub).map (· + 1)

/-- Index of the first occurrence of a character (JS `indexOf`), `none` when
absent. -/
def indexOfChar (s : Str) (c : Char) : Option Nat := indexOfSub s [c]

/-- JS `String.prototype.trim`: strip leading and trailing whitespace. -/
def trimS (s : Str) : Str :=
  ((s.dropWhile Char.isWhitespace).reverse.dropWhile Char.isWhitespace).reverse

/-- Split on a single-character separator (model of `s.split(sep)` for the
one-character separators used by the sources: `'\n'`, `','`, `'/'`, `'.'`). -/
def splitOnCharAux (sep : Char) : Str → Str → List Str
  | cur, [] => [cur.reverse]
  | cur, c :: rest =>
    if c = sep then cur.reverse :: splitOnCharAux sep [] rest
    else splitOnCharAux sep (c :: cur) rest

/-- `s.split(sep)` for a one-character separator. -/
def splitOnChar (sep : Char) (s : Str) : List Str := splitOnCharAux sep [] s

/-- `parts.join(sep)` (JS `Array.prototype.join`). -/
def joinSep (sep : Str) : List Str → Str
  | [] => []
  | [x] => x
  | x :: y :: rest => x ++ sep ++ joinSep sep (y :: rest)

/-- `s.toLowerCase()` (ASCII, as exercised by the sources). -/
def toLowerS (s : Str) : Str := s.map Char.toLower

/-- `s.replace(/\\/g, '/')`: normalize Windows path separators. -/
def normSep (s : Str) : Str := s.map (fun c => if c = '\\' then '/' else c)

/-- `s.replace(/SUF$/, '')`: drop a trailing literal suffix when present. -/
def removeSuffix (s suf : Str) : Str :=
  if endsWithS s suf then s.take (s.length - suf.length) else s

/-- `s.replace(pat, repl)` with a plain-string pattern: replace the first
occurrence only; `s` is returned unchanged when `pat` does not occur. -/
def replaceFirst (pat repl : Str) : Str → Str
  | [] => if startsWithS [] pat then repl else []
  | c :: rest =>
    if startsWithS (c :: rest) pat then repl ++ (c :: rest).drop pat.length
    else c :: replaceFirst pat repl rest

/-- Render a natural number in decimal (for diagnostic messages). -/
def natToStr (n : Nat) : Str := Nat.toDigits 10 n

/-- Strict code-unit order on strings (the default JS `Array.sort`
comparison and the model of `localeCompare`); characters are compared by
code point. -/
def lexLt : Str → Str → Bool
  | [], [] => false
  | [], _ :: _ => true
  | _ :: _, [] => false
  | a :: as, b :: bs =>
    if a.toNat < b.toNat then true
    else if b.toNat < a.toNat then false
    else lexLt as bs

/-- Non-strict counterpart of `lexLt`. -/
def lexLe (a b : Str) : Bool := ! lexLt b a

/-- Stable insertion of a string into a sorted list (equal keys keep their
relative order). -/
def insertStr (x : Str) : List Str → List Str
  | [] => [x]
  | y :: ys => if lexLe y x then y :: insertStr x ys else x :: y :: ys

/-- JS `Array.prototype.sort()` on strings (default code-unit comparator),
modelled by insertion sort. -/
def sortStrs : List Str → List Str
  | [] => []
  | x :: xs => insertStr x (sortStrs xs)

/-- JS `\s` character class (whitespace as matched by the link regexes). -/
def jsWs (c : Char) : Bool :=
  c = ' ' || c = '\t' || c = '\n' || c = '\r' || c.val = 0xb || c.val = 0xc ||
  c.val = 0xa0 || c.val = 0x1680 || (0x2000 ≤ c.val && c.val ≤ 0x200a) ||
  c.val = 0x2028 || c.val = 0x2029 || c.val = 0x202f || c.val = 0x205f ||
  c.val = 0x3000 || c.val = 0xfeff

/-- JS line terminators: the characters at which multiline `^`/`$` anchor
and which `.` (without the `s` flag) refuses to match. -/
def isLineTerm (c : Char) : Bool :=
  c = '\n' || c = '\r' || c.val = 0x2028 || c.val = 0x2029

/-- JS `.` without the `s` flag: anything but a line terminator. -/
def dotChar (c : Char) : Bool := ! isLineTerm c

/-! ### Node `path` (posix) model: `join`, `basename` -/

/-- Segment processing of `path.posix.normalize`: drop `.`, resolve `..`
(`..` above the root of an absolute path disappears, above the start of a
relative path it is kept). -/
def normSegs (isAbs : Bool) : List Str → List Str → List Str
  | acc, [] => acc
  | acc, seg :: rest =>
    if seg = str "." then normSegs isAbs acc rest
    else if seg = str ".." then
      if acc ≠ [] ∧ acc.getLast? ≠ some (str "..") then
        normSegs isAbs acc.dropLast rest
      else if isAbs then normSegs isAbs acc rest
      else normSegs isAbs (acc ++ [seg]) rest
    else normSegs isAbs (acc ++ [seg]) rest

/-- `path.posix.normalize`. -/
def pathNormalize (p : Str) : Str :=
  if p = [] then str "." else
  let isAbs := startsWithS p (str "/")
  let hasTrail := endsWithS p (str "/")
  let segs := (splitOnChar '/' p).filter (· ≠ [])
  let out := normSegs isAbs [] segs
  let body := joinSep (str "/") out
  if body = [] then
    if isAbs then str "/" else if hasTrail then str "./" else str "."
  else
    let body := if hasTrail then body ++ str "/" else body
    if isAbs then str "/" ++ body else body

/-- `path.posix.join(a, b)` for the two-argument calls made by the sources. -/
def pathJoin (a b : Str) : Str :=
  let parts := ([a, b]).filter (· ≠ [])
  if parts = [] then str "." else pathNormalize (joinSep (str "/") parts)

/-- `path.basename(p, ext)` (posix): trailing separators stripped, last
segment taken, a proper trailing `ext` removed. -/
def basenameExt (p : Str) (ext : Str) : Str :=
  let p' := (p.reverse.dropWhile (· = '/')).reverse
  let name := (p'.reverse.takeWhile (· ≠ '/')).reverse
  if name ≠ ext ∧ endsWithS name ext then name.take (name.length - ext.length)
  else name

/-! ### Metadata values and objects (metadata-parser.ts) -/

/-- The scalar/array values produced by `MetadataParser.parseValue`.
Decimal float literals are modelled exactly, as rationals. -/
inductive MetaValue where
  | str (s : Str)
  | bool (b : Bool)
  | int (n : Int)
  | float (q : Rat)
  | arr (xs : List Str)
  | null
deriving DecidableEq

/-- A JS object with string keys, in insertion order (keys are unique by
construction through `objSet`). -/
abbrev MetaObj := List (Str × MetaValue)

/-- Property read `o[k]` (`none` plays the role of `undefined`). -/
def objGet : MetaObj → Str → Option MetaValue
  | [], _ => none
  | kv :: rest, k => if kv.1 = k then some kv.2 else objGet rest k

/-- `k in o`. -/
def objHas (o : MetaObj) (k : Str) : Bool := (objGet o k).isSome

/-- Property write `o[k] = v`: overwrite in place when the key exists,
append otherwise (JS object key-order semantics). -/
def objSet (o : MetaObj) (k : Str) (v : MetaValue) : MetaObj :=
  if objHas o k then
    o.map (fun kv => if kv.1 = k then (kv.1, v) else kv)
  else o ++ [(k, v)]

/-- The `=== null` test of the cleanup loop. -/
def isNullV : MetaValue → Bool
  | .null => true
  | _ => false

/-- JS truthiness of a metadata value. -/
def jsTruthy : MetaValue → Bool
  | .str s => s ≠ []
  | .bool b => b
  | .int n => n ≠ 0
  | .float q => q ≠ 0
  | .arr _ => true
  | .null => false

/-- Test for `/^-?\d+$/` (metadata-parser.ts line 146). -/
def matchesInt (v : Str) : Bool :=
  let d := if startsWithS v (str "-") then v.drop 1 else v
  d ≠ [] && d.all Char.isDigit

/-- Test for `/^-?\d*\.?\d+$/` (metadata-parser.ts line 149). -/
def matchesFloat (v : Str) : Bool :=
  let d := if startsWithS v (str "-") then v.drop 1 else v
  match splitOnChar '.' d with
  | [w] => w ≠ [] && w.all Char.isDigit
  | [w, f] => w.all Char.isDigit && (f ≠ [] && f.all Char.isDigit)
  | _ => false

/-- Decimal digits to a natural number. -/
def digitsToNat (s : Str) : Nat :=
  s.foldl (fun acc c => acc * 10 + (c.toNat - '0'.toNat)) 0

/-- `parseInt(v, 10)` on a string matching `/^-?\d+$/`. -/
def parseIntAll (v : Str) : Int :=
  if startsWithS v (str "-") then - (digitsToNat (v.drop 1) : Int)
  else (digitsToNat v : Int)

/-- `parseFloat(v)` on a string matching `/^-?\d*\.?\d+$/`, modelled exactly
as a rational. -/
def parseDecimal (v : Str) : Rat :=
  let neg := startsWithS v (str "-")
  let d := if neg then v.drop 1 else v
  let mag : Rat :=
    match splitOnChar '.' d with
    | [w] => (digitsToNat w : Rat)
    | [w, f] => (digitsToNat w : Rat) + (digitsToNat f : Rat) / ((10 : Rat) ^ f.length)
    | _ => 0
  if neg then -mag else mag

/-- The quoted-string test of `parseValue` (metadata-parser.ts lines
127-128): wrapped in matching double or single quotes. -/
def isQuoted (value : Str) : Bool :=
  (startsWithS value (str "\"") && endsWithS value (str "\"")) ||
  (startsWithS value (str "'") && endsWithS value (str "'"))

/-- `MetadataParser.parseValue` (metadata-parser.ts lines 121-160): heuristic
type coercion of one metadata value. -/
def parseValue (value : Str) : MetaValue :=
  if value = [] then .str []
  else if isQuoted value then
    .str (value.drop 1).dropLast
  else if toLowerS value = str "true" then .bool true
  else if toLowerS value = str "false" then .bool false
  else if toLowerS value = str "null" || toLowerS value = str "~" then .null
  else if matchesInt value then .int (parseIntAll value)
  else if matchesFloat value then .float (parseDecimal value)
  else if value.contains ',' && ! value.contains ' ' then
    .arr ((splitOnChar ',' value).map trimS)
  else .str value

/-- `MetadataParser.parseMetadataLines` (metadata-parser.ts lines 63-114).
Lines without a colon, or with a leading colon, produce no key; both arms of
the empty-value lookahead in the source assign the empty string, so the
lookahead collapses. -/
def parseMetadataLines (metadataLines : List Str) : MetaObj :=
  metadataLines.foldl (fun metadata l =>
    let line := trimS l
    if line = [] then metadata
    else
      match indexOfChar line ':' with
      | none => metadata
      | some 0 => metadata
      | some colonIndex =>
        let key := trimS (line.take colonIndex)
        let valueAfterColon := trimS (line.drop (colonIndex + 1))
        if valueAfterColon = [] then objSet metadata key (.str [])
        else objSet metadata key (parseValue valueAfterColon)) []

/-- Result of `MetadataParser.parseMetadata`. -/
structure ParseResult where
  metadata : MetaObj
  content : Str
deriving DecidableEq

/-- First index `i ≥ 1` whose line trims to `---`. -/
def findCloseDelim (lines : List Str) : Option Nat :=
  (lines.drop 1).findIdx? (fun l => trimS l = str "---") |>.map (· + 1)

/-- `MetadataParser.parseMetadata` (metadata-parser.ts lines 12-56). -/
def parseMetadata (content : Str) : ParseResult :=
  let trimmedContent := trimS content
  if ! startsWithS trimmedContent (str "---") then
    ⟨[], trimmedContent⟩
  else
    let lines := splitOnChar '\n' trimmedContent
    match findCloseDelim lines with
    | none => ⟨[], trimmedContent⟩
    | some metadataEndIndex =>
      let metadataLines := (lines.take metadataEndIndex).drop 1
      let remainingContent := trimS (joinSep (str "\n") (lines.drop (metadataEndIndex + 1)))
      ⟨parseMetadataLines metadataLines, remainingContent⟩

/-- The normalization step of `MetadataParser.parseWithNormalization`
(metadata-parser.ts lines 174-205): wrap `globs` into an array, coerce
`alwaysApply` to a boolean, then remove `null`-valued keys (`undefined` has
no counterpart in the value model). -/
def normalizeMetadata (md : MetaObj) : MetaObj :=
  let m1 :=
    match objGet md (str "globs") with
    | none => objSet md (str "globs") (.arr [])
    | some (.str s) =>
      objSet md (str "globs") (if trimS s = [] then .arr [] else .arr [s])
    | some _ => md
  let m2 :=
    match objGet m1 (str "alwaysApply") with
    | none => objSet m1 (str "alwaysApply") (.bool false)
    | some (.str s) => objSet m1 (str "alwaysApply") (.bool (toLowerS s = str "true"))
    | some _ => m1
  m2.filter (fun kv => ! isNullV kv.2)

/-- `MetadataParser.parseWithNormalization` (metadata-parser.ts lines 167-211). -/
def parseWithNormalization (content : Str) : ParseResult :=
  let result := parseMetadata content
  ⟨normalizeMetadata result.metadata, result.content⟩

/-! ### Link resolver (link-resolver.ts) -/

/-- The configuration fields read by the resolver. -/
structure InternalPluginConfig where
  sourceDir : Str
  crossReferenceBase : Str

/-- One resolved cross-reference (types.ts `CrossReference`). -/
structure CrossReference where
  original : Str
  resolved : Str
  isValid : Bool
deriving DecidableEq

/-- `Map.set` key behaviour: re-setting an existing key keeps its place. -/
def insertKey (keys : List Str) (k : Str) : List Str :=
  if keys.contains k then keys else keys ++ [k]

/-- `LinkResolver.setDiscoveredFiles` (link-resolver.ts lines 25-37), reduced
to the key set of the map: every function under verification reads only
`discoveredFiles.has` and `discoveredFiles.keys()`, never the values.  Each
file path is stored as-is and with separators normalized. -/
def setDiscoveredFiles (filePaths : List Str) : List Str :=
  filePaths.foldl (fun keys fp => insertKey (insertKey keys fp) (normSep fp)) []

/-- `relativePath.replace(/^\.\//, '')`: drop one leading `./`. -/
def cleanDotSlash (p : Str) : Str :=
  if startsWithS p (str "./") then p.drop 2 else p

/-- `LinkResolver.validateTargetExists` (link-resolver.ts lines 155-174):
exact key, key without a leading `./`, key with separators normalized. -/
def validateTargetExists (keys : List Str) (relativePath : Str) : Bool :=
  keys.contains relativePath ||
  keys.contains (cleanDotSlash relativePath) ||
  keys.contains (normSep (cleanDotSlash relativePath))

/-- The stripping step of `LinkResolver.resolveSingleLink` (link-resolver.ts
lines 101-123): remove a `mdc:` scheme (with optional source-dir segment), a
`.cursor/rules/` segment, or a leading `./`. -/
def stripTarget (cfg : InternalPluginConfig) (originalLink : Str) : Str :=
  if startsWithS originalLink (str "mdc:") then
    let mdcPath := originalLink.drop 4
    if startsWithS mdcPath (cfg.sourceDir ++ str "/") then
      mdcPath.drop (cfg.sourceDir.length + 1)
    else if startsWithS mdcPath (str "./" ++ cfg.sourceDir ++ str "/") then
      mdcPath.drop ((str "./" ++ cfg.sourceDir ++ str "/").length)
    else mdcPath
  else if containsSub originalLink (str ".cursor/rules/") then
    let rulesIndex := (indexOfSub originalLink (str ".cursor/rules/")).getD 0 +
      (str ".cursor/rules/").length
    originalLink.drop rulesIndex
  else if startsWithS originalLink (str "./") then originalLink.drop 2
  else originalLink

/-- `LinkResolver.resolveSingleLink` (link-resolver.ts lines 99-147).  The
source wraps the body in try/catch, but no step of the body can throw, so the
catch arm has no counterpart. -/
def resolveSingleLink (cfg : InternalPluginConfig) (keys : List Str)
    (originalLink : Str) : CrossReference :=
  let targetFilePath := stripTarget cfg originalLink
  let pathWithoutExt := removeSuffix targetFilePath (str ".mdc")
  let normalizedPath := normSep pathWithoutExt
  let resolvedUrl := pathJoin cfg.crossReferenceBase normalizedPath
  ⟨originalLink, resolvedUrl, validateTargetExists keys targetFilePath⟩

/-- The `availableFiles` list of `LinkResolver.generateWarnings`
(link-resolver.ts lines 187-190): keys ending in `.mdc`, prefixed `./`,
sorted. -/
def availableFilesOf (keys : List Str) : List Str :=
  sortStrs ((keys.filter (fun p => endsWithS p (str ".mdc"))).map
    (fun p => str "./" ++ p))

/-- `LinkResolver.findSimilarFiles` (link-resolver.ts lines 219-237): the
one-pass push-if-similar loop is a filter; at most three suggestions are
kept. -/
def findSimilarFiles (originalLink : Str) (availableFiles : List Str) : List Str :=
  let linkBasename := toLowerS (basenameExt originalLink (str ".mdc"))
  (availableFiles.filter (fun file =>
    let fileBasename := toLowerS (basenameExt file (str ".mdc"))
    fileBasename = linkBasename ||
      (containsSub fileBasename linkBasename || containsSub linkBasename fileBasename))).take 3

/-- The diagnostic message built for one broken reference (link-resolver.ts
lines 187-204); the source's conditional `+=` steps are written as appends of
possibly-empty segments. -/
def mkWarning (keys : List Str) (sourceFilePath : Str) (ref : CrossReference) : Str :=
  str "Broken cross-reference in " ++ sourceFilePath ++ str ": " ++ ref.original ++
  (if findSimilarFiles ref.original (availableFilesOf keys) ≠ [] then
    str "\n  Suggestions: " ++
      joinSep (str ", ") (findSimilarFiles ref.original (availableFilesOf keys))
  else []) ++
  (str "\n  Available files: " ++
    joinSep (str ", ") ((availableFilesOf keys).take 5)) ++
  (if (availableFilesOf keys).length > 5 then
    str " (and " ++ natToStr ((availableFilesOf keys).length - 5) ++ str " more)"
  else [])

/-- `LinkResolver.generateWarnings` (link-resolver.ts lines 182-211): one
message per invalid reference, in order. -/
def generateWarnings (keys : List Str) (crossReferences : List CrossReference)
    (sourceFilePath : Str) : List Str :=
  (crossReferences.filter (fun ref => ! ref.isValid)).map (mkWarning keys sourceFilePath)

/-- The record returned by `LinkResolver.getResolutionStats`. -/
structure ResolutionStats where
  total : Nat
  valid : Nat
  broken : Nat
  successRate : Rat
deriving DecidableEq

/-- `Math.round` (half toward positive infinity). -/
def jsRound (q : Rat) : Int := ⌊q + 1 / 2⌋

/-- `LinkResolver.getResolutionStats` (link-resolver.ts lines 244-261).
`valid ≤ total`, so the JS subtraction is the natural one. -/
def getResolutionStats (allCrossReferences : List CrossReference) : ResolutionStats :=
  let total := allCrossReferences.length
  let valid := (allCrossReferences.filter (fun ref => ref.isValid)).length
  let broken := total - valid
  let successRate : Rat := if total > 0 then ((valid : Rat) / (total : Rat)) * 100 else 100
  ⟨total, valid, broken, (jsRound (successRate * 100) : Rat) / 100⟩

/-! ### Sidebar generator (sidebar-generator.ts) -/

/-- The fields of a sidebar item read by sorting and construction; the
remaining fields (`type`, `href`, `items`, collapse flags) do not influence
the sorted order. -/
structure SidebarItem where
  label : Str
  position : Option Rat
deriving DecidableEq

/-- Model of `a.label.localeCompare(b.label)` by code-unit comparison. -/
def localeCompare (x y : Str) : Rat :=
  if lexLt x y then -1 else if lexLt y x then 1 else 0

/-- The comparator of `SidebarGenerator.sortSidebarItems`
(sidebar-generator.ts: position difference, positioned-first, label order). -/
def compareItems (a b : SidebarItem) : Rat :=
  match a.position, b.position with
  | some p, some q => p - q
  | some _, none => -1
  | none, some _ => 1
  | none, none => localeCompare a.label b.label

/-- `compare(a, b) <= 0`: `a` need not come after `b`. -/
def itemLe (a b : SidebarItem) : Bool := compareItems a b ≤ 0

/-- `SidebarGenerator.sortSidebarItems`: JS `Array.prototype.sort` (stable,
comparator-driven), modelled by a stable merge sort with `compare ≤ 0`. -/
def sortSidebarItems (items : List SidebarItem) : List SidebarItem :=
  items.mergeSort itemLe

/-- `parseInt(s, 10)` for an arbitrary string: optional sign after leading
whitespace, then a leading run of digits; `none` models `NaN`. -/
def jsParseInt (s : Str) : Option Int :=
  let t := s.dropWhile Char.isWhitespace
  let (neg, t) :=
    if startsWithS t (str "-") then (true, t.drop 1)
    else if startsWithS t (str "+") then (false, t.drop 1)
    else (false, t)
  let digits := t.takeWhile Char.isDigit
  if digits = [] then none
  else some (if neg then - (digitsToNat digits : Int) else (digitsToNat digits : Int))

/-- The coercion applied to the selected metadata value by
`SidebarGenerator.extractSidebarPosition`: numbers are used as-is, strings go
through `parseInt` (with an `isNaN` guard), anything else yields no
position. -/
def coercePosition : Option MetaValue → Option Rat
  | some (.int n) => some (n : Rat)
  | some (.float q) => some q
  | some (.str s) => (jsParseInt s).map (fun n => (n : Rat))
  | _ => none

/-- `SidebarGenerator.extractSidebarPosition` (sidebar-generator.ts): the
JS expression `metadata.sidebar_position || metadata.sidebarPosition`
falls through to `sidebarPosition` whenever `sidebar_position` is absent or
falsy. -/
def extractSidebarPosition (metadata : MetaObj) : Option Rat :=
  let position :=
    match objGet metadata (str "sidebar_position") with
    | some v => if jsTruthy v then some v else objGet metadata (str "sidebarPosition")
    | none => objGet metadata (str "sidebarPosition")
  coercePosition position

/-! ### Content loader (content-loader.ts) -/

/-- One processed rule document (the fields relevant to the verified
claims). -/
structure RuleContent where
  id : Str
  filePath : Str
  title : Str
  content : Str
deriving DecidableEq

/-- `ContentLoader.processFile` (content-loader.ts lines 138-181): the whole
body — file read, metadata parsing, title extraction, markdown rendering,
TOC extraction — sits inside one try/catch that logs and returns `null` on
any throw.  `step` is the outcome of that body: `Except.error` when any step
throws. -/
def processFile (step : Except Str RuleContent) : Option RuleContent :=
  match step with
  | .ok content => some content
  | .error _ => none

/-- The first-pass loop of `ContentLoader.loadContent` (content-loader.ts
lines 59-71): push each successfully processed document; the surrounding
`catch { errors.push(...) }` can only fire if `processFile` rejects, which
its own all-enclosing try/catch rules out, so no error string is ever
appended here. -/
def loadContentLoop (files : List (Except Str RuleContent)) :
    List RuleContent × List Str :=
  files.foldl (fun acc step =>
    match processFile step with
    | some content => (acc.1 ++ [content], acc.2)
    | none => acc) ([], [])

/-- The `\s+(.+)$` tail of the heading pattern `/^#\s+(.+)$/m`
(content-loader.ts line 202), matched against the text following a `#`.
The argument counts how many characters the greedy `\s+` still claims; the
engine backtracks longest-first until the `.`-run capture is non-empty
(JS `\s` matches line breaks, so the run may cross them; `.` stops at the
next line terminator, where `$` then holds). -/
def h1TailAux (rest : Str) : Nat → Option Str
  | 0 => none
  | n + 1 =>
    let group := (rest.drop (n + 1)).takeWhile dotChar
    if group ≠ [] then some group else h1TailAux rest n

/-- Match `\s+(.+)$` at the text following a `#`: the greedy whitespace run
starts at its maximal length. -/
def matchH1After (rest : Str) : Option Str :=
  h1TailAux rest (rest.takeWhile jsWs).length

/-- Scan of `content.match(/^#\s+(.+)$/m)`: the engine tries every index,
where `^` holds at the start of the string and right after each line
terminator; the flag tracks whether the current position is such a line
start.  The leftmost successful match wins. -/
def firstH1Aux : Bool → Str → Option Str
  | _, [] => none
  | atLineStart, c :: rest =>
    if atLineStart && c = '#' then
      match matchH1After rest with
      | some g => some g
      | none => firstH1Aux (isLineTerm c) rest
    else firstH1Aux (isLineTerm c) rest

/-- First level-1 heading of the body, if any: the first capture of
`/^#\s+(.+)$/m`, trimmed (content-loader.ts lines 202-204). -/
def firstH1 (content : Str) : Option Str :=
  (firstH1Aux true content).map trimS

/-- The truthy-string test used by `extractTitle`'s first two branches:
`metadata.x && typeof metadata.x === 'string'` accepts exactly non-empty
string values. -/
def titleFromMeta : Option MetaValue → Option Str
  | some (.str s) => if s = [] then none else some s
  | _ => none

/-- JS `\w` word character. -/
def isWordChar (c : Char) : Bool := c.isAlphanum || c = '_'

/-- `replace(/\b\w/g, l => l.toUpperCase())`: uppercase each word character
that follows a non-word character (or starts the string). -/
def capitalizeWordsAux : Bool → Str → Str
  | _, [] => []
  | prevWord, c :: rest =>
    (if isWordChar c && ! prevWord then c.toUpper else c) ::
      capitalizeWordsAux (isWordChar c) rest

/-- Word capitalization at word boundaries. -/
def capitalizeWords (s : Str) : Str := capitalizeWordsAux false s

/-- The filename fallback of `extractTitle` (content-loader.ts lines
207-209): basename without `.mdc`, separators to spaces, words
capitalized. -/
def fallbackTitle (relativePath : Str) : Str :=
  let filename := basenameExt relativePath (str ".mdc")
  capitalizeWords (filename.map (fun c => if c = '-' || c = '_' then ' ' else c))

/-- `ContentLoader.extractTitle` (content-loader.ts lines 190-210). -/
def extractTitle (metadata : MetaObj) (content : Str) (relativePath : Str) : Str :=
  match titleFromMeta (objGet metadata (str "title")) with
  | some t => t
  | none =>
    match titleFromMeta (objGet metadata (str "description")) with
    | some d => d
    | none =>
      match firstH1 content with
      | some h => h
      | none => fallbackTitle relativePath

/-! ### A small backtracking regex engine

`LinkResolver.resolveLinks` scans the body with the combined pattern
`MDC_LINK_PATTERN` (link-resolver.ts line 14).  The pattern is embedded as a
syntax tree and executed by a standard backtracking matcher in
continuation-passing style, fuelled for termination (the fuel bounds only the
call depth; the patterns below never loop on empty matches). -/

/-- Regular-expression syntax: literals, single-character classes,
sequencing, prioritized alternation, greedy and lazy star, capture groups. -/
inductive RE where
  | lit : Str → RE
  | cls : (Char → Bool) → RE
  | seq : RE → RE → RE
  | alt : RE → RE → RE
  | starG : RE → RE
  | starL : RE → RE
  | group : Nat → RE → RE

/-- Greedy `+`. -/
def RE.plusG (a : RE) : RE := .seq a (.starG a)

/-- Captures recorded along the successful path, most recent first. -/
abbrev Caps := List (Nat × Str)

/-- Backtracking matcher: `reMatch fuel p s caps k` tries every way `p` can
consume a leading segment of `s`, in the usual priority order (alternation
left-first, greedy stars longest-first, lazy stars shortest-first), calling
the continuation `k` with the remaining suffix; the first success wins. -/
def reMatch (R : Type) : Nat → RE → Str → Caps →
    (Str → Caps → Option R) → Option R
  | 0, _, _, _, _ => none
  | _ + 1, .lit l, s, caps, k =>
    if startsWithS s l then k (s.drop l.length) caps else none
  | _ + 1, .cls f, s, caps, k =>
    match s with
    | [] => none
    | c :: rest => if f c then k rest caps else none
  | fuel + 1, .seq a b, s, caps, k =>
    reMatch R fuel a s caps (fun s1 caps1 => reMatch R fuel b s1 caps1 k)
  | fuel + 1, .alt a b, s, caps, k =>
    match reMatch R fuel a s caps k with
    | some r => some r
    | none => reMatch R fuel b s caps k
  | fuel + 1, .starG a, s, caps, k =>
    match reMatch R fuel a s caps (fun s1 caps1 =>
      if s1.length < s.length then reMatch R fuel (.starG a) s1 caps1 k
      else none) with
    | some r => some r
    | none => k s caps
  | fuel + 1, .starL a, s, caps, k =>
    match k s caps with
    | some r => some r
    | none =>
      reMatch R fuel a s caps (fun s1 caps1 =>
        if s1.length < s.length then reMatch R fuel (.starL a) s1 caps1 k
        else none)
  | fuel + 1, .group n a, s, caps, k =>
    reMatch R fuel a s caps (fun s1 caps1 =>
      k s1 ((n, s.take (s.length - s1.length)) :: caps1))

/-- One regex match: the matched text and the captures. -/
structure REMatch where
  matched : Str
  caps : Caps

/-- Group lookup in a capture list. -/
def capGet (caps : Caps) (n : Nat) : Option Str :=
  (caps.find? (fun p => p.1 = n)).map (·.2)

/-- Call-depth fuel: ample for the patterns below on any input. -/
def reFuel (s : Str) : Nat := 4 * s.length + 200

/-- Try a match of `p` anchored at the start of `s`. -/
def reMatchAt (p : RE) (s : Str) : Option REMatch :=
  reMatch (Str × Caps) (reFuel s) p s [] (fun s1 caps => some (s1, caps)) |>.map
    (fun r => ⟨s.take (s.length - r.1.length), r.2⟩)

/-- Leftmost match at an index `≥ i` (the scan of a global regex); `fuel`
counts the start positions still to try. -/
def reFindFromAux (p : RE) (s : Str) : Nat → Nat → Option (Nat × REMatch)
  | _, 0 => none
  | i, fuel + 1 =>
    match reMatchAt p (s.drop i) with
    | some m => some (i, m)
    | none => reFindFromAux p s (i + 1) fuel

/-- Leftmost match at an index `≥ i`. -/
def reFindFrom (p : RE) (s : Str) (i : Nat) : Option (Nat × REMatch) :=
  reFindFromAux p s i (s.length + 1 - i)

/-- `content.matchAll(pattern)` for a global pattern: non-overlapping
matches, scanning left to right (an empty match advances by one, as JS
does). -/
def matchAllFrom (p : RE) (s : Str) (i : Nat) (fuel : Nat) : List REMatch :=
  match fuel with
  | 0 => []
  | fuel + 1 =>
    match reFindFrom p s i with
    | none => []
    | some (j, m) =>
      m :: matchAllFrom p s (j + (if m.matched = [] then 1 else m.matched.length)) fuel

/-- All matches of a global pattern. -/
def matchAll (p : RE) (s : Str) : List REMatch := matchAllFrom p s 0 (s.length + 1)

/-! ### `MDC_LINK_PATTERN` and `resolveLinks` -/

/-- Character class `[^\s"']` of the href alternatives. -/
def hrefChar (c : Char) : Bool := ! jsWs c && c ≠ '"' && c ≠ '\''

/-- Character class `[^\s\)\]]` of the bare alternatives. -/
def bareChar (c : Char) : Bool := ! jsWs c && c ≠ ')' && c ≠ ']'

/-- One reference form: a literal head, a non-empty run from `cl`, then
`.mdc`. -/
def refForm (head : String) (cl : Char → Bool) : RE :=
  .seq (.lit (str head)) (.seq (RE.plusG (.cls cl)) (.lit (str ".mdc")))

/-- `\.\/[^\s"']+\.mdc|\.cursor\/rules\/[^\s"']+\.mdc|mdc:[^\s"']+\.mdc`. -/
def hrefAlts : RE :=
  .alt (refForm "./" hrefChar)
    (.alt (refForm ".cursor/rules/" hrefChar) (refForm "mdc:" hrefChar))

/-- `\.\/[^\s\)\]]+\.mdc|\.cursor\/rules\/[^\s\)\]]+\.mdc|mdc:[^\s\)\]]+\.mdc`. -/
def bareAlts : RE :=
  .alt (refForm "./" bareChar)
    (.alt (refForm ".cursor/rules/" bareChar) (refForm "mdc:" bareChar))

/-- `["']` quote class. -/
def quoteCls : RE := .cls (fun c => c = '"' || c = '\'')

/-- Right-nested sequencing of a pattern list. -/
def reSeqs : List RE → RE
  | [] => .lit []
  | [p] => p
  | p :: q :: rest => .seq p (reSeqs (q :: rest))

/-- The anchor-tag alternative of `MDC_LINK_PATTERN`:
`<a\s+[^>]*href\s*=\s*["'](…)["'][^>]*>.*?<\/a>`. -/
def anchorRE : RE :=
  reSeqs [.lit (str "<a"), RE.plusG (.cls jsWs), .starG (.cls (· ≠ '>')),
    .lit (str "href"), .starG (.cls jsWs), .lit (str "="), .starG (.cls jsWs),
    quoteCls, .group 2 hrefAlts, quoteCls, .starG (.cls (· ≠ '>')),
    .lit (str ">"), .starL (.cls dotChar), .lit (str "</a>")]

/-- `MDC_LINK_PATTERN` (link-resolver.ts line 14): the anchor alternative as
group 1 (href as group 2), the bare alternative as group 3. -/
def mdcLinkRE : RE := .alt (.group 1 anchorRE) (.group 3 bareAlts)

/-- The capture of `anchorTag.match(/>([^<]*)</)` (link-resolver.ts line 66):
from the leftmost `>` that is followed by a later `<`, the characters up to
that first `<`. -/
def takeUntilLt : Str → Option Str
  | [] => none
  | '<' :: _ => some []
  | c :: rest => (takeUntilLt rest).map (c :: ·)

/-- Leftmost `>([^<]*)<` capture in a string. -/
def findGtLt : Str → Option Str
  | [] => none
  | '>' :: rest =>
    match takeUntilLt rest with
    | some t => some t
    | none => findGtLt rest
  | _ :: rest => findGtLt rest

/-- Result of `LinkResolver.resolveLinks`. -/
structure LinkResult where
  content : Str
  crossReferences : List CrossReference
deriving DecidableEq

/-- `LinkResolver.resolveLinks` (link-resolver.ts lines 45-91): scan the
original content once for all matches; anchor matches have the whole anchor
tag replaced (first occurrence in the working content) by a rebuilt
`<a href="resolved">text</a>`; bare matches have the matched substring
replaced by the resolved target.  The `sourceFilePath` argument of the
source is used only for logging and is omitted. -/
def resolveLinks (cfg : InternalPluginConfig) (keys : List Str)
    (content : Str) : LinkResult :=
  (matchAll mdcLinkRE content).foldl (fun acc m =>
    match capGet m.caps 1 with
    | some anchorTag =>
      let originalLink := (capGet m.caps 2).getD []
      let linkText := match findGtLt anchorTag with
        | some t => t
        | none => str "link"
      let resolvedInfo := resolveSingleLink cfg keys originalLink
      let newAnchorTag :=
        str "<a href=\"" ++ resolvedInfo.resolved ++ str "\">" ++ linkText ++ str "</a>"
      ⟨replaceFirst anchorTag newAnchorTag acc.content,
        acc.crossReferences ++ [resolvedInfo]⟩
    | none =>
      match capGet m.caps 3 with
      | some originalLink =>
        let resolvedInfo := resolveSingleLink cfg keys originalLink
        ⟨replaceFirst originalLink resolvedInfo.resolved acc.content,
          acc.crossReferences ++ [resolvedInfo]⟩
      | none => acc) ⟨content, []⟩

/-! ### Spec-side definitions used in statements -/

/-- The sibling order demanded by the spec's sort rule: positioned items
precede unpositioned ones regardless of the position's value, positioned
items are in ascending position order, unpositioned ones in label order. -/
def specSidebarOrder (a b : SidebarItem) : Prop :=
  match a.position, b.position with
  | some p, some q => p ≤ q
  | some _, none => True
  | none, some _ => False
  | none, none => lexLe a.label b.label = true

/-- "× 100 rounded to 2 decimal places" with JS `Math.round`. -/
def round2 (q : Rat) : Rat := (jsRound (q * 100) : Rat) / 100

/-! ## Theorems -/

/-! ### Shared helper lemmas -/

/-- A string is a leading segment of itself extended to the right. -/
theorem startsWithS_self_append (l t : Str) : startsWithS (l ++ t) l = true := by
  induction l with
  | nil => simp [startsWithS]
  | cons c rest ih => simpa [startsWithS] using ih

/-- A match at the head is an occurrence. -/
theorem containsSub_of_startsWithS {s sub : Str} (h : startsWithS s sub = true) :
    containsSub s sub = true := by
  cases s with
  | nil =>
    cases sub with
    | nil => simp [containsSub, startsWithS]
    | cons c rest => simp [startsWithS] at h
  | cons c rest => simp [containsSub, h]

/-- Any explicit decomposition witnesses an occurrence. -/
theorem containsSub_decomp (pre sub post : Str) :
    containsSub (pre ++ (sub ++ post)) sub = true := by
  induction pre with
  | nil => exact containsSub_of_startsWithS (startsWithS_self_append sub post)
  | cons c rest ih =>
    have hstep : containsSub (c :: (rest ++ (sub ++ post))) sub =
        (startsWithS (c :: (rest ++ (sub ++ post))) sub ||
          containsSub (rest ++ (sub ++ post)) sub) := rfl
    simp [List.cons_append, hstep, ih]

/-- Insertion introduces no new elements. -/
theorem mem_insertStr {y x : Str} : ∀ {l : List Str},
    y ∈ insertStr x l → y = x ∨ y ∈ l := by
  intro l
  induction l with
  | nil => intro h; simpa [insertStr] using h
  | cons z zs ih =>
    intro h
    by_cases hz : lexLe z x = true
    · rw [insertStr, if_pos hz] at h
      rcases List.mem_cons.mp h with h1 | h1
      · exact Or.inr (by simp [h1])
      · rcases ih h1 with h2 | h2
        · exact Or.inl h2
        · exact Or.inr (by simp [h2])
    · rw [insertStr, if_neg hz] at h
      rcases List.mem_cons.mp h with h1 | h1
      · exact Or.inl h1
      · exact Or.inr h1

/-- Sorting introduces no new elements. -/
theorem mem_sortStrs {y : Str} {l : List Str} (h : y ∈ sortStrs l) : y ∈ l := by
  induction l with
  | nil => exact h
  | cons x xs ih =>
    rcases mem_insertStr (l := sortStrs xs) (by simpa [sortStrs] using h) with h' | h'
    · simp [h']
    · simp [ih h']

/-- Occurrences survive prepending. -/
theorem containsSub_append_left (pre s sub : Str) (h : containsSub s sub = true) :
    containsSub (pre ++ s) sub = true := by
  induction pre with
  | nil => simpa using h
  | cons c rest ih =>
    have hstep : containsSub (c :: (rest ++ s)) sub =
        (startsWithS (c :: (rest ++ s)) sub || containsSub (rest ++ s) sub) := rfl
    simp [List.cons_append, hstep, ih]

/-! ### C1 — per-document transform failures -/

/-- The first-pass loop of `loadContent` accumulates exactly the documents
whose transform succeeded and leaves the error accumulator untouched. -/
theorem loadContentLoop_foldl (files : List (Except Str RuleContent))
    (acc : List RuleContent × List Str) :
    (files.foldl (fun acc step =>
      match processFile step with
      | some content => (acc.1 ++ [content], acc.2)
      | none => acc) acc) =
    (acc.1 ++ files.filterMap processFile, acc.2) := by
  induction files generalizing acc with
  | nil => simp
  | cons f rest ih =>
    cases f with
    | ok c =>
      have h1 : List.filterMap processFile (Except.ok c :: rest) =
          c :: List.filterMap processFile rest := rfl
      rw [List.foldl_cons, h1]
      show List.foldl _ (acc.1 ++ [c], acc.2) rest = _
      rw [ih]
      simp
    | error e =>
      have h1 : List.filterMap processFile (Except.error e :: rest) =
          List.filterMap processFile rest := rfl
      rw [List.foldl_cons, h1]
      exact ih acc

/-- C1 (counterexample): a file whose per-document transform throws is
excluded and the remaining files are processed, but the result's error list
stays empty — the claimed error string is never recorded. -/
theorem c1_per_document_failure_counterexample :
    loadContentLoop [Except.error (str "read failed"),
      Except.ok ⟨str "main", str "main.mdc", str "Main", str ""⟩] =
      ([⟨str "main", str "main.mdc", str "Main", str ""⟩], []) ∧
    ¬ ((loadContentLoop [Except.error (str "read failed"),
      Except.ok ⟨str "main", str "main.mdc", str "Main", str ""⟩]).2.length = 1) := by
  constructor
  · rfl
  · decide

/-- C1 (amended): for every batch of per-document transform outcomes, the
pipeline keeps exactly the successfully transformed documents, continues
past every failure, and records no error string — the errors sequence of the
first pass is always empty, because `processFile` catches every throw
internally and returns `null`. -/
theorem c1_per_document_failure (files : List (Except Str RuleContent)) :
    loadContentLoop files = (files.filterMap processFile, []) := by
  unfold loadContentLoop
  rw [loadContentLoop_foldl]
  simp

/-! ### C2 — resolution of references whose stripped path is indexed -/

/-- C2: when the stripped relative path (as-is, without a leading `./`, or
with separators normalized) is a key of the document index, the produced
`CrossReference` is valid and resolves to the configured base path joined
with the stripped path minus its `.mdc` extension. -/
theorem c2_valid_reference_resolution (cfg : InternalPluginConfig)
    (keys : List Str) (link : Str)
    (h : keys.contains (stripTarget cfg link) = true ∨
         keys.contains (cleanDotSlash (stripTarget cfg link)) = true ∨
         keys.contains (normSep (cleanDotSlash (stripTarget cfg link))) = true) :
    (resolveSingleLink cfg keys link).isValid = true ∧
    (resolveSingleLink cfg keys link).resolved =
      pathJoin cfg.crossReferenceBase
        (normSep (removeSuffix (stripTarget cfg link) (str ".mdc"))) ∧
    (resolveSingleLink cfg keys link).original = link := by
  refine ⟨?_, rfl, rfl⟩
  show validateTargetExists keys (stripTarget cfg link) = true
  unfold validateTargetExists
  rcases h with h | h | h <;> simp at h ⊢ <;> tauto

/-- C2 witness: `./modes/plan.mdc` against an index holding
`modes/plan.mdc`. -/
theorem c2_valid_reference_resolution_witness :
    ((setDiscoveredFiles [str "modes/plan.mdc"]).contains
        (stripTarget ⟨str ".cursor/rules", str "/docs/rules"⟩
          (str "./modes/plan.mdc")) = true) ∧
    ((resolveSingleLink ⟨str ".cursor/rules", str "/docs/rules"⟩
        (setDiscoveredFiles [str "modes/plan.mdc"]) (str "./modes/plan.mdc")).isValid = true ∧
      (resolveSingleLink ⟨str ".cursor/rules", str "/docs/rules"⟩
        (setDiscoveredFiles [str "modes/plan.mdc"]) (str "./modes/plan.mdc")).resolved =
        pathJoin (str "/docs/rules")
          (normSep (removeSuffix
            (stripTarget ⟨str ".cursor/rules", str "/docs/rules"⟩ (str "./modes/plan.mdc"))
            (str ".mdc"))) ∧
      (resolveSingleLink ⟨str ".cursor/rules", str "/docs/rules"⟩
        (setDiscoveredFiles [str "modes/plan.mdc"]) (str "./modes/plan.mdc")).original =
        str "./modes/plan.mdc") :=
  ⟨by decide, c2_valid_reference_resolution _ _ _ (Or.inl (by decide))⟩

/-! ### C3 — diagnostics for broken references -/

/-- The diagnostic message laid out as a right-nested append chain. -/
theorem mkWarning_eq (keys : List Str) (src : Str) (ref : CrossReference) :
    mkWarning keys src ref =
      str "Broken cross-reference in " ++ (src ++ ((str ": ") ++ (ref.original ++
        ((if findSimilarFiles ref.original (availableFilesOf keys) ≠ [] then
            str "\n  Suggestions: " ++
              joinSep (str ", ") (findSimilarFiles ref.original (availableFilesOf keys))
          else []) ++
         ((str "\n  Available files: ") ++
          ((joinSep (str ", ") ((availableFilesOf keys).take 5)) ++
           (if (availableFilesOf keys).length > 5 then
             str " (and " ++ natToStr ((availableFilesOf keys).length - 5) ++ str " more)"
           else []))))))) := by
  simp only [mkWarning, List.append_assoc]

set_option maxHeartbeats 2000000 in
/-- C3: every invalid reference yields exactly one diagnostic; each
diagnostic contains the source identifier and the original reference text,
always carries the first five known `./`-prefixed document paths, and at
most three similarity suggestions; with eight known documents and one broken
reference the message lists exactly five paths plus an overflow note for the
remaining three. -/
theorem c3_broken_reference_diagnostics :
    (∀ keys refs src, (generateWarnings keys refs src).length =
        (refs.filter (fun r => ! r.isValid)).length ∧
      generateWarnings keys refs src =
        (refs.filter (fun r => ! r.isValid)).map (mkWarning keys src)) ∧
    (∀ keys src ref,
      containsSub (mkWarning keys src ref) src = true ∧
      containsSub (mkWarning keys src ref) ref.original = true ∧
      containsSub (mkWarning keys src ref)
        (joinSep (str ", ") ((availableFilesOf keys).take 5)) = true) ∧
    (∀ link files, (findSimilarFiles link files).length ≤ 3) ∧
    (∀ keys, ∀ f ∈ availableFilesOf keys, startsWithS f (str "./") = true) ∧
    generateWarnings
      (setDiscoveredFiles [str "alpha.mdc", str "beta.mdc", str "delta.mdc",
        str "theta.mdc", str "kappa.mdc", str "lambda.mdc", str "omega.mdc",
        str "zeta.mdc"])
      [⟨str "./missing.mdc", str "/docs/rules/missing", false⟩]
      (str "main.mdc") =
      [str "Broken cross-reference in main.mdc: ./missing.mdc\n  Available files: ./alpha.mdc, ./beta.mdc, ./delta.mdc, ./kappa.mdc, ./lambda.mdc (and 3 more)"] := by
  refine ⟨fun keys refs src => ⟨by simp [generateWarnings], rfl⟩, fun keys src ref => ?_,
    fun link files => ?_, fun keys f hf => ?_, by decide⟩
  · refine ⟨?_, ?_, ?_⟩
    · rw [mkWarning_eq]
      exact containsSub_decomp (str "Broken cross-reference in ") src _
    · rw [mkWarning_eq]
      exact containsSub_append_left _ _ _ (containsSub_append_left _ _ _
        (containsSub_append_left _ _ _ (containsSub_decomp [] ref.original _)))
    · rw [mkWarning_eq]
      exact containsSub_append_left _ _ _ (containsSub_append_left _ _ _
        (containsSub_append_left _ _ _ (containsSub_append_left _ _ _
          (containsSub_append_left _ _ _ (containsSub_append_left _ _ _
            (containsSub_decomp [] _ _))))))
  · simp only [findSimilarFiles, List.length_take]
    exact Nat.min_le_left 3 _
  · simp only [availableFilesOf] at hf
    rcases List.mem_map.mp (mem_sortStrs hf) with ⟨p, _, hp⟩
    rw [← hp]
    exact startsWithS_self_append (str "./") p

/-- C3 witness: the `./` prefix clause at a concrete one-document index. -/
theorem c3_broken_reference_diagnostics_witness :
    startsWithS (str "./alpha.mdc") (str "./") = true :=
  c3_broken_reference_diagnostics.2.2.2.1 (setDiscoveredFiles [str "alpha.mdc"])
    (str "./alpha.mdc") (by decide)

/-! ### C4 — title extraction priority -/

/-- C4 (counterexample): a metadata map binding `title` to the empty string
has its title present, yet the extracted title is the description — the
first branch requires a truthy (non-empty) string, so "present" is not
sufficient for a verbatim return. -/
theorem c4_title_priority_counterexample :
    objGet [(str "title", MetaValue.str []),
      (str "description", MetaValue.str (str "desc"))] (str "title") =
      some (.str []) ∧
    extractTitle [(str "title", MetaValue.str []),
      (str "description", MetaValue.str (str "desc"))] [] (str "x.mdc") =
      str "desc" ∧
    str "desc" ≠ [] := by decide

/-- C4 (amended): the extracted title follows the strict priority chain —
a metadata title that is a non-empty string is returned verbatim; otherwise
a non-empty string description; otherwise the first line-anchored level-1
heading of the body; otherwise the capitalized, separator-split base name of
the file. -/
theorem c4_title_priority :
    (∀ md c p s, objGet md (str "title") = some (.str s) → s ≠ [] →
      extractTitle md c p = s) ∧
    (∀ md c p s, titleFromMeta (objGet md (str "title")) = none →
      objGet md (str "description") = some (.str s) → s ≠ [] →
      extractTitle md c p = s) ∧
    (∀ md c p h, titleFromMeta (objGet md (str "title")) = none →
      titleFromMeta (objGet md (str "description")) = none →
      firstH1 c = some h → extractTitle md c p = h) ∧
    (∀ md c p, titleFromMeta (objGet md (str "title")) = none →
      titleFromMeta (objGet md (str "description")) = none →
      firstH1 c = none → extractTitle md c p = fallbackTitle p) := by
  refine ⟨?_, ?_, ?_, ?_⟩
  · intro md c p s hget hs
    simp [extractTitle, hget, titleFromMeta, hs]
  · intro md c p s ht hget hs
    unfold extractTitle
    rw [ht]
    simp [titleFromMeta, hget, hs]
  · intro md c p h ht hd hh
    unfold extractTitle
    rw [ht, hd, hh]
  · intro md c p ht hd hh
    unfold extractTitle
    rw [ht, hd, hh]

/-- C4 witness: verbatim title, description fallback, a first heading whose
`\s+` spans a line break, and the filename fallback, at concrete inputs. -/
theorem c4_title_priority_witness :
    extractTitle [(str "title", MetaValue.str (str "My Title"))] []
      (str "x.mdc") = str "My Title" ∧
    extractTitle [(str "description", MetaValue.str (str "About x"))] []
      (str "x.mdc") = str "About x" ∧
    extractTitle [] (str "#\nTitle") (str "x.mdc") = str "Title" ∧
    extractTitle [] (str "plain body") (str "my-rule.mdc") =
      fallbackTitle (str "my-rule.mdc") :=
  ⟨c4_title_priority.1 _ _ _ _ (by decide) (by decide),
   c4_title_priority.2.1 _ _ _ _ (by decide) (by decide) (by decide),
   c4_title_priority.2.2.1 _ _ _ _ (by decide) (by decide) (by decide),
   c4_title_priority.2.2.2 _ _ _ (by decide) (by decide) (by decide)⟩

/-! ### C5 — hyperlink rewriting -/

set_option maxHeartbeats 2000000 in
/-- C5 (counterexample): an anchor carrying a further attribute is replaced
by a freshly built anchor that drops the attribute, so rewriting does not
leave the rest of the anchor element unchanged. -/
theorem c5_anchor_rewrite_counterexample :
    resolveLinks ⟨str ".cursor/rules", str "/docs/rules"⟩
      (setDiscoveredFiles [str "main.mdc"])
      (str "See <a href=\"./main.mdc\" class=\"c\">main</a>") =
      ⟨str "See <a href=\"/docs/rules/main\">main</a>",
       [⟨str "./main.mdc", str "/docs/rules/main", true⟩]⟩ ∧
    (resolveLinks ⟨str ".cursor/rules", str "/docs/rules"⟩
      (setDiscoveredFiles [str "main.mdc"])
      (str "See <a href=\"./main.mdc\" class=\"c\">main</a>")).content ≠
      str "See <a href=\"/docs/rules/main\" class=\"c\">main</a>" := by decide

set_option maxHeartbeats 2000000 in
/-- C5 (amended): an anchor match is replaced by a rebuilt
`<a href="resolved">text</a>` carrying the first text segment of the
original anchor; for a plain anchor this coincides with replacing only the
destination attribute: the scenario body yields the rewritten body with the
label untouched and exactly one valid `CrossReference`. -/
theorem c5_anchor_rewrite :
    resolveLinks ⟨str ".cursor/rules", str "/docs/rules"⟩
      (setDiscoveredFiles [str "main.mdc"])
      (str "See <a href=\"./main.mdc\">main</a>") =
      ⟨str "See <a href=\"/docs/rules/main\">main</a>",
       [⟨str "./main.mdc", str "/docs/rules/main", true⟩]⟩ := by decide

/-! ### C6 — metadata value coercion -/

/-- C6 (counterexample): a value containing a comma and a tab (but no space)
is split into an array, although the claim's "comma-without-any-whitespace"
condition would leave it a plain string. -/
theorem c6_value_coercion_counterexample :
    parseValue (str "a,\tb") = .arr [str "a", str "b"] ∧
    parseValue (str "a,\tb") ≠ .str (str "a,\tb") := by decide

/-- C6 (amended): value coercion tries, in strict order, quote unwrapping,
case-insensitive booleans, case-insensitive null / `~`, integers, decimal
floats, then the comma-split — which is blocked only by a space character,
not by arbitrary whitespace — and otherwise returns the string itself; an
empty value yields the empty string.  The scenario block parses to
`{title: "Test", published: true, count: 3}` with body `Body`. -/
theorem c6_value_coercion :
    parseValue [] = .str [] ∧
    (∀ v, v ≠ [] → isQuoted v = true → parseValue v = .str (v.drop 1).dropLast) ∧
    (∀ v, isQuoted v = false → toLowerS v = str "true" → parseValue v = .bool true) ∧
    (∀ v, isQuoted v = false → toLowerS v = str "false" → parseValue v = .bool false) ∧
    (∀ v, isQuoted v = false → toLowerS v = str "null" ∨ toLowerS v = str "~" →
      parseValue v = .null) ∧
    (∀ v, isQuoted v = false → toLowerS v ≠ str "true" → toLowerS v ≠ str "false" →
      toLowerS v ≠ str "null" → toLowerS v ≠ str "~" → matchesInt v = true →
      parseValue v = .int (parseIntAll v)) ∧
    (∀ v, isQuoted v = false → toLowerS v ≠ str "true" → toLowerS v ≠ str "false" →
      toLowerS v ≠ str "null" → toLowerS v ≠ str "~" → matchesInt v = false →
      matchesFloat v = true → parseValue v = .float (parseDecimal v)) ∧
    (∀ v, v ≠ [] → isQuoted v = false → toLowerS v ≠ str "true" →
      toLowerS v ≠ str "false" → toLowerS v ≠ str "null" → toLowerS v ≠ str "~" →
      matchesInt v = false → matchesFloat v = false → v.contains ',' = true →
      v.contains ' ' = false → parseValue v = .arr ((splitOnChar ',' v).map trimS)) ∧
    (∀ v, v ≠ [] → isQuoted v = false → toLowerS v ≠ str "true" →
      toLowerS v ≠ str "false" → toLowerS v ≠ str "null" → toLowerS v ≠ str "~" →
      matchesInt v = false → matchesFloat v = false →
      (v.contains ',' && ! v.contains ' ') = false → parseValue v = .str v) ∧
    parseMetadata (str "---\nempty:\n---\nBody") =
      ⟨[(str "empty", .str [])], str "Body"⟩ ∧
    parseMetadata (str "---\ntitle: Test\npublished: true\ncount: 3\n---\nBody") =
      ⟨[(str "title", .str (str "Test")), (str "published", .bool true),
        (str "count", .int 3)], str "Body"⟩ := by
  refine ⟨by decide, ?_, ?_, ?_, ?_, ?_, ?_, ?_, ?_, by decide, by decide⟩
  · intro v hv hq
    simp [parseValue, hv, hq]
  · intro v hq ht
    have hv : v ≠ [] := by rintro rfl; exact absurd ht (by decide)
    simp [parseValue, hv, hq, ht]
  · intro v hq hf
    have hv : v ≠ [] := by rintro rfl; exact absurd hf (by decide)
    simp [parseValue, hv, hq, hf]
    decide
  · intro v hq hn
    have hv : v ≠ [] := by
      rintro rfl
      rcases hn with hn | hn <;> exact absurd hn (by decide)
    rcases hn with hn | hn <;> simp [parseValue, hv, hq, hn] <;> decide
  · intro v hq ht hf hn hn2 hi
    have hv : v ≠ [] := by rintro rfl; exact absurd hi (by decide)
    simp [parseValue, hv, hq, ht, hf, hn, hn2, hi]
  · intro v hq ht hf hn hn2 hi hfl
    have hv : v ≠ [] := by rintro rfl; exact absurd hfl (by decide)
    simp [parseValue, hv, hq, ht, hf, hn, hn2, hi, hfl]
  · intro v hv hq ht hf hn hn2 hi hfl hc hs
    have hc' : ',' ∈ v := by simpa using hc
    have hs' : ' ' ∉ v := by simpa using hs
    simp [parseValue, hv, hq, ht, hf, hn, hn2, hi, hfl, hc', hs']
  · intro v hv hq ht hf hn hn2 hi hfl hcs
    simp only [Bool.and_eq_false_iff, Bool.not_eq_false] at hcs
    rcases hcs with hcs | hcs
    · have hc' : ',' ∉ v := by simpa using hcs
      simp [parseValue, hv, hq, ht, hf, hn, hn2, hi, hfl, hc']
    · have hs' : ' ' ∈ v := by simpa using hcs
      simp [parseValue, hv, hq, ht, hf, hn, hn2, hi, hfl, hs']

/-- C6 witness: the integer, float, array and string branches at concrete
values. -/
theorem c6_value_coercion_witness :
    parseValue (str "-42") = .int (-42) ∧
    parseValue (str "1.5") = .float (parseDecimal (str "1.5")) ∧
    parseValue (str "a,b") = .arr [str "a", str "b"] ∧
    parseValue (str "hello world") = .str (str "hello world") :=
  ⟨c6_value_coercion.2.2.2.2.2.1 _ (by decide) (by decide) (by decide)
      (by decide) (by decide) (by decide),
   c6_value_coercion.2.2.2.2.2.2.1 _ (by decide) (by decide) (by decide)
      (by decide) (by decide) (by decide) (by decide),
   by
     have h := c6_value_coercion.2.2.2.2.2.2.2.1 (str "a,b") (by decide)
       (by decide) (by decide) (by decide) (by decide) (by decide) (by decide)
       (by decide) (by decide) (by decide)
     simpa using h,
   c6_value_coercion.2.2.2.2.2.2.2.2.1 _ (by decide) (by decide) (by decide)
      (by decide) (by decide) (by decide) (by decide) (by decide) (by decide)⟩

/-! ### C7 — sidebar sorting -/

/-- `lexLt` is asymmetric. -/
theorem lexLt_asymm : ∀ a b : Str, lexLt a b = true → lexLt b a = false := by
  intro a
  induction a with
  | nil =>
    intro b h
    cases b with
    | nil => simp [lexLt] at h
    | cons y ys => simp [lexLt]
  | cons x xs ih =>
    intro b h
    cases b with
    | nil => simp [lexLt] at h
    | cons y ys =>
      by_cases h1 : x.toNat < y.toNat
      · have h2 : ¬ y.toNat < x.toNat := by omega
        simp [lexLt, h1, h2]
      · by_cases h2 : y.toNat < x.toNat
        · simp [lexLt, h1, h2] at h
        · have h3 : lexLt xs ys = true := by simpa [lexLt, h1, h2] using h
          simp [lexLt, h1, h2, ih ys h3]

/-- Negative transitivity of `lexLt`: the non-strict order it induces is
transitive. -/
theorem lexLt_neg_trans : ∀ a b c : Str,
    lexLt b a = false → lexLt c b = false → lexLt c a = false := by
  intro a
  induction a with
  | nil =>
    intro b c _ _
    cases c <;> simp [lexLt]
  | cons x xs ih =>
    intro b c hba hcb
    cases b with
    | nil => simp [lexLt] at hba
    | cons y ys =>
      cases c with
      | nil => simp [lexLt] at hcb
      | cons z zs =>
        by_cases h1 : y.toNat < x.toNat
        · simp [lexLt, h1] at hba
        · by_cases h2 : z.toNat < y.toNat
          · simp [lexLt, h2] at hcb
          · have h3 : ¬ z.toNat < x.toNat := by omega
            by_cases h4 : x.toNat < z.toNat
            · simp [lexLt, h3, h4]
            · have hxy : ¬ x.toNat < y.toNat := by omega
              have hyz : ¬ y.toNat < z.toNat := by omega
              have hba' : lexLt ys xs = false := by simpa [lexLt, h1, hxy] using hba
              have hcb' : lexLt zs ys = false := by simpa [lexLt, h2, hyz] using hcb
              simp [lexLt, h3, h4, ih ys zs hba' hcb']

/-- The sort comparator is transitive. -/
theorem itemLe_trans (a b c : SidebarItem)
    (hab : itemLe a b = true) (hbc : itemLe b c = true) : itemLe a c = true := by
  simp only [itemLe, compareItems, decide_eq_true_eq] at hab hbc ⊢
  rcases ha : a.position with _ | p <;> rcases hb : b.position with _ | q <;>
    rcases hc : c.position with _ | r <;> simp [ha, hb, hc] at hab hbc ⊢
  · -- all unpositioned: label order
    unfold localeCompare at hab hbc ⊢
    by_cases h1 : lexLt a.label b.label = true
    · have h1' : lexLt b.label a.label = false := lexLt_asymm _ _ h1
      by_cases h2 : lexLt b.label c.label = true
      · have h2' : lexLt c.label b.label = false := lexLt_asymm _ _ h2
        have := lexLt_neg_trans _ _ _ h1' h2'
        by_cases h3 : lexLt a.label c.label = true <;> simp [h3, this]
      · simp [h2] at hbc
        by_cases h4 : lexLt c.label b.label = true
        · simp [h4] at hbc; norm_num at hbc
        · have hcb : lexLt c.label b.label = false := by simpa using h4
          have := lexLt_neg_trans _ _ _ h1' hcb
          by_cases h3 : lexLt a.label c.label = true <;> simp [h3, this]
    · simp [h1] at hab
      by_cases h4 : lexLt b.label a.label = true
      · simp [h4] at hab; norm_num at hab
      · have hba : lexLt b.label a.label = false := by simpa using h4
        by_cases h2 : lexLt b.label c.label = true
        · have h2' : lexLt c.label b.label = false := lexLt_asymm _ _ h2
          have := lexLt_neg_trans _ _ _ hba h2'
          by_cases h3 : lexLt a.label c.label = true <;> simp [h3, this]
        · simp [h2] at hbc
          by_cases h5 : lexLt c.label b.label = true
          · simp [h5] at hbc; norm_num at hbc
          · have hcb : lexLt c.label b.label = false := by simpa using h5
            have := lexLt_neg_trans _ _ _ hba hcb
            by_cases h3 : lexLt a.label c.label = true <;> simp [h3, this]
  all_goals linarith

/-- The sort comparator is total. -/
theorem itemLe_total (a b : SidebarItem) : (itemLe a b || itemLe b a) = true := by
  simp only [itemLe, compareItems, Bool.or_eq_true, decide_eq_true_eq]
  rcases ha : a.position with _ | p <;> rcases hb : b.position with _ | q <;>
    simp [ha, hb]
  · unfold localeCompare
    by_cases h1 : lexLt a.label b.label = true
    · simp [h1]
    · by_cases h2 : lexLt b.label a.label = true <;> simp [h1, h2]
  · exact le_total p q

/-- The comparator implies the spec's sibling order. -/
theorem specOrder_of_itemLe {a b : SidebarItem} (h : itemLe a b = true) :
    specSidebarOrder a b := by
  simp only [itemLe, compareItems, decide_eq_true_eq] at h
  unfold specSidebarOrder
  rcases ha : a.position with _ | p <;> rcases hb : b.position with _ | q <;>
    simp [ha, hb] at h ⊢
  · unfold localeCompare at h
    unfold lexLe
    by_cases h1 : lexLt a.label b.label = true
    · simp [lexLt_asymm _ _ h1]
    · simp [h1] at h
      by_cases h2 : lexLt b.label a.label = true
      · simp [h2] at h; norm_num at h
      · simpa using h2
  all_goals linarith

/-- C7: after sorting a sibling list, every positioned item precedes every
unpositioned one, positioned items appear in ascending position order, and
unpositioned items appear in alphabetical label order. -/
theorem c7_sidebar_sort (items : List SidebarItem) :
    List.Pairwise specSidebarOrder (sortSidebarItems items) :=
  (List.sorted_mergeSort (fun a b c => itemLe_trans a b c) itemLe_total
    items).imp (fun h => specOrder_of_itemLe h)

/-! ### C8 — resolution statistics -/

/-- `Math.round` evaluated through its floor characterization. -/
theorem jsRound_eq (q : Rat) (n : Int) (h1 : (n : Rat) ≤ q + 1 / 2)
    (h2 : q + 1 / 2 < n + 1) : jsRound q = n := by
  rw [jsRound]
  exact Int.floor_eq_iff.mpr ⟨h1, h2⟩

/-- C8: the statistics record reports total, valid, broken and the rounded
success rate as the spec's formulas state, with 100 for the empty sequence
and for any all-valid sequence, and 66.67 for two valid references out of
three. -/
theorem c8_resolution_stats :
    (∀ refs : List CrossReference,
      (getResolutionStats refs).total = refs.length ∧
      (getResolutionStats refs).valid = (refs.filter (fun r => r.isValid)).length ∧
      (getResolutionStats refs).broken =
        refs.length - (refs.filter (fun r => r.isValid)).length) ∧
    (∀ refs : List CrossReference, 0 < refs.length →
      (getResolutionStats refs).successRate =
        round2 ((((refs.filter (fun r => r.isValid)).length : Rat) /
          (refs.length : Rat)) * 100)) ∧
    (getResolutionStats []).successRate = 100 ∧
    (∀ refs : List CrossReference, (∀ r ∈ refs, r.isValid = true) →
      (getResolutionStats refs).successRate = 100) ∧
    (getResolutionStats [⟨str "a", str "b", true⟩, ⟨str "c", str "d", true⟩,
      ⟨str "e", str "f", false⟩]).successRate = 66.67 := by
  have h100 : jsRound ((100 : Rat) * 100) = 10000 :=
    jsRound_eq _ _ (by norm_num) (by norm_num)
  refine ⟨fun refs => ⟨rfl, rfl, rfl⟩, fun refs h => ?_, ?_, fun refs h => ?_, ?_⟩
  · simp [getResolutionStats, round2, h]
  · show (jsRound ((100 : Rat) * 100) : Rat) / 100 = 100
    rw [h100]; norm_num
  · have hfilter : refs.filter (fun r => r.isValid) = refs :=
      List.filter_eq_self.mpr (fun a ha => by simp [h a ha])
    rcases Nat.eq_zero_or_pos refs.length with h0 | h0
    · have : refs = [] := List.length_eq_zero.mp h0
      subst this
      show (jsRound ((100 : Rat) * 100) : Rat) / 100 = 100
      rw [h100]; norm_num
    · have hlen : ((refs.length : Rat)) ≠ 0 := by
        simpa using Nat.pos_iff_ne_zero.mp h0
      have h1 : jsRound (((refs.length : Rat) / (refs.length : Rat)) * 100 * 100) = 10000 := by
        rw [div_self hlen]
        exact jsRound_eq _ _ (by norm_num) (by norm_num)
      show (jsRound ((if 0 < refs.length then
        (((refs.filter (fun r => r.isValid)).length : Rat) / (refs.length : Rat)) * 100
        else 100) * 100) : Rat) / 100 = 100
      rw [if_pos h0, hfilter, h1]
      norm_num
  · have h2 : jsRound (((2 : Nat) : Rat) / ((3 : Nat) : Rat) * 100 * 100) = 6667 := by
      apply jsRound_eq <;> norm_num
    show (jsRound ((if 0 < (3 : Nat) then
        ((((2 : Nat) : Rat)) / (((3 : Nat) : Rat))) * 100 else 100) * 100) : Rat)
      / 100 = 66.67
    rw [if_pos (by norm_num), h2]
    norm_num

/-- C8 witness: the all-valid clause at a concrete singleton sequence. -/
theorem c8_resolution_stats_witness :
    (getResolutionStats [⟨str "a", str "b", true⟩]).successRate = 100 :=
  c8_resolution_stats.2.2.2.1 [⟨str "a", str "b", true⟩] (by decide)

/-! ### C9 — idempotence of metadata normalization -/

/-- In-place overwrite of an existing key is visible to lookup. -/
theorem objGet_map_set (k : Str) (v : MetaValue) : ∀ (o : MetaObj),
    objHas o k = true →
    objGet (o.map (fun kv => if kv.1 = k then (kv.1, v) else kv)) k = some v := by
  intro o
  induction o with
  | nil => intro h; simp [objHas, objGet] at h
  | cons kv rest ih =>
    intro h
    by_cases hk : kv.1 = k
    · simp [objGet, hk]
    · have h' : objHas rest k = true := by
        simpa [objHas, objGet, hk] using h
      simpa [objGet, hk] using ih h'

/-- Appending a fresh binding is visible to lookup. -/
theorem objGet_append_set (k : Str) (v : MetaValue) : ∀ (o : MetaObj),
    objGet o k = none → objGet (o ++ [(k, v)]) k = some v := by
  intro o
  induction o with
  | nil => intro _; simp [objGet]
  | cons kv rest ih =>
    intro h
    have hk : ¬ (kv.1 = k) := by
      intro hk
      simp [objGet, hk] at h
    have h' : objGet rest k = none := by simpa [objGet, hk] using h
    simpa [objGet, hk] using ih h'

/-- Key lookup after `o[k] = v`. -/
theorem objGet_objSet_self (o : MetaObj) (k : Str) (v : MetaValue) :
    objGet (objSet o k v) k = some v := by
  rw [objSet]
  by_cases h : objHas o k = true
  · rw [if_pos h]
    exact objGet_map_set k v o h
  · rw [if_neg h]
    apply objGet_append_set
    rcases hg : objGet o k with _ | w
    · rfl
    · exact absurd (by simp [objHas, hg]) h

/-- In-place overwrite of `k` does not disturb lookups of `k2 ≠ k`. -/
theorem objGet_map_set_ne (k k2 : Str) (v : MetaValue) (h : k2 ≠ k) :
    ∀ (o : MetaObj),
    objGet (o.map (fun kv => if kv.1 = k then (kv.1, v) else kv)) k2 =
      objGet o k2 := by
  intro o
  induction o with
  | nil => rfl
  | cons kv rest ih =>
    by_cases hk : kv.1 = k
    · have hk2 : ¬ (kv.1 = k2) := by rw [hk]; exact fun hh => h hh.symm
      rw [List.map_cons,
        show (if kv.1 = k then (kv.1, v) else kv) = (kv.1, v) from if_pos hk]
      simpa [objGet, hk2] using ih
    · rw [List.map_cons,
        show (if kv.1 = k then (kv.1, v) else kv) = kv from if_neg hk]
      by_cases hk2 : kv.1 = k2
      · simp [objGet, hk2]
      · simpa [objGet, hk2] using ih

/-- Appending a binding for `k` does not disturb lookups of `k2 ≠ k`. -/
theorem objGet_append_ne (k k2 : Str) (v : MetaValue) (h : k2 ≠ k) :
    ∀ (o : MetaObj), objGet (o ++ [(k, v)]) k2 = objGet o k2 := by
  intro o
  induction o with
  | nil =>
    have hne : ¬ (k = k2) := fun hh => h hh.symm
    simp [objGet, hne]
  | cons kv rest ih =>
    by_cases hk2 : kv.1 = k2
    · simp [objGet, hk2]
    · simpa [objGet, hk2] using ih

/-- Overwriting one key leaves other keys unchanged. -/
theorem objGet_objSet_ne (o : MetaObj) (k k2 : Str) (v : MetaValue)
    (h : k2 ≠ k) : objGet (objSet o k v) k2 = objGet o k2 := by
  rw [objSet]
  split
  · exact objGet_map_set_ne k k2 v h o
  · exact objGet_append_ne k k2 v h o

/-- A non-null binding survives the null-removing cleanup. -/
theorem objGet_filter_ne_null (k : Str) (v : MetaValue) (hv : v ≠ .null) :
    ∀ (o : MetaObj), objGet o k = some v →
    objGet (o.filter (fun kv => ! isNullV kv.2)) k = some v := by
  have hvB : isNullV v = false := by
    cases v <;> simp [isNullV] at hv ⊢
  intro o
  induction o with
  | nil => intro h; simp [objGet] at h
  | cons kv rest ih =>
    intro h
    by_cases hk : kv.1 = k
    · have hkv : kv.2 = v := by simpa [objGet, hk] using h
      simp [List.filter_cons, hkv, hvB, objGet, hk]
    · have h' : objGet rest k = some v := by simpa [objGet, hk] using h
      by_cases hnull : isNullV kv.2 = true
      · simp [List.filter_cons, hnull, ih h']
      · simp [List.filter_cons, hnull, objGet, hk, ih h']

/-- All values in a normalized object are non-null. -/
theorem normalizeMetadata_no_null (md : MetaObj) :
    ∀ kv ∈ normalizeMetadata md, kv.2 ≠ MetaValue.null := by
  intro kv hkv hn
  simp only [normalizeMetadata] at hkv
  have h2 := (List.mem_filter.mp hkv).2
  rw [hn] at h2
  simp [isNullV] at h2

/-- The `alwaysApply` step never touches the `globs` binding. -/
theorem alwaysApplyStep_globs (m1 : MetaObj) :
    objGet (match objGet m1 (str "alwaysApply") with
      | none => objSet m1 (str "alwaysApply") (.bool false)
      | some (.str s) => objSet m1 (str "alwaysApply") (.bool (toLowerS s = str "true"))
      | some _ => m1) (str "globs") = objGet m1 (str "globs") := by
  have hne : str "globs" ≠ str "alwaysApply" := by decide
  rcases h : objGet m1 (str "alwaysApply") with _ | v
  · exact objGet_objSet_ne _ _ _ _ hne
  · cases v <;> first
      | exact objGet_objSet_ne _ _ _ _ hne
      | rfl

/-- After normalization, `globs` is bound to a non-string, non-null value
(provided it was not bound to null before). -/
theorem normalizeMetadata_globs (md : MetaObj)
    (hg : objGet md (str "globs") ≠ some .null) :
    ∃ gv, objGet (normalizeMetadata md) (str "globs") = some gv ∧
      (∀ s, gv ≠ .str s) ∧ gv ≠ .null := by
  have step1 : ∃ gv, objGet
      (match objGet md (str "globs") with
        | none => objSet md (str "globs") (.arr [])
        | some (.str s) =>
          objSet md (str "globs") (if trimS s = [] then .arr [] else .arr [s])
        | some _ => md) (str "globs") = some gv ∧
      (∀ s, gv ≠ .str s) ∧ gv ≠ .null := by
    rcases h : objGet md (str "globs") with _ | v
    · exact ⟨.arr [], objGet_objSet_self _ _ _, by simp, by simp⟩
    · cases v with
      | str s =>
        refine ⟨if trimS s = [] then .arr [] else .arr [s],
          objGet_objSet_self _ _ _, fun t => ?_, ?_⟩ <;> split <;> simp
      | null => exact absurd h hg
      | bool b => exact ⟨.bool b, h, by simp, by simp⟩
      | int n => exact ⟨.int n, h, by simp, by simp⟩
      | float q => exact ⟨.float q, h, by simp, by simp⟩
      | arr xs => exact ⟨.arr xs, h, by simp, by simp⟩
  obtain ⟨gv, hgv, hs, hn⟩ := step1
  refine ⟨gv, ?_, hs, hn⟩
  simp only [normalizeMetadata]
  apply objGet_filter_ne_null _ _ hn
  rw [alwaysApplyStep_globs]
  exact hgv

/-- After normalization, `alwaysApply` is bound to a non-string, non-null
value (provided it was not bound to null before). -/
theorem normalizeMetadata_alwaysApply (md : MetaObj)
    (ha : objGet md (str "alwaysApply") ≠ some .null) :
    ∃ av, objGet (normalizeMetadata md) (str "alwaysApply") = some av ∧
      (∀ s, av ≠ .str s) ∧ av ≠ .null := by
  have hne : str "alwaysApply" ≠ str "globs" := by decide
  have hm1 : objGet (match objGet md (str "globs") with
      | none => objSet md (str "globs") (.arr [])
      | some (.str s) =>
        objSet md (str "globs") (if trimS s = [] then .arr [] else .arr [s])
      | some _ => md) (str "alwaysApply") = objGet md (str "alwaysApply") := by
    rcases h : objGet md (str "globs") with _ | v
    · exact objGet_objSet_ne _ _ _ _ hne
    · cases v <;> first
        | exact objGet_objSet_ne _ _ _ _ hne
        | rfl
  have step2 : ∃ av, objGet
      (match objGet (match objGet md (str "globs") with
          | none => objSet md (str "globs") (.arr [])
          | some (.str s) =>
            objSet md (str "globs") (if trimS s = [] then .arr [] else .arr [s])
          | some _ => md) (str "alwaysApply") with
        | none => objSet (match objGet md (str "globs") with
            | none => objSet md (str "globs") (.arr [])
            | some (.str s) =>
              objSet md (str "globs") (if trimS s = [] then .arr [] else .arr [s])
            | some _ => md) (str "alwaysApply") (.bool false)
        | some (.str s) => objSet (match objGet md (str "globs") with
            | none => objSet md (str "globs") (.arr [])
            | some (.str s) =>
              objSet md (str "globs") (if trimS s = [] then .arr [] else .arr [s])
            | some _ => md) (str "alwaysApply") (.bool (toLowerS s = str "true"))
        | some _ => (match objGet md (str "globs") with
            | none => objSet md (str "globs") (.arr [])
            | some (.str s) =>
              objSet md (str "globs") (if trimS s = [] then .arr [] else .arr [s])
            | some _ => md)) (str "alwaysApply") = some av ∧
      (∀ s, av ≠ .str s) ∧ av ≠ .null := by
    rcases h : objGet (match objGet md (str "globs") with
        | none => objSet md (str "globs") (.arr [])
        | some (.str s) =>
          objSet md (str "globs") (if trimS s = [] then .arr [] else .arr [s])
        | some _ => md) (str "alwaysApply") with _ | v
    · exact ⟨.bool false, objGet_objSet_self _ _ _, by simp, by simp⟩
    · cases v with
      | str s =>
        exact ⟨.bool (toLowerS s = str "true"),
          objGet_objSet_self _ _ _, by simp, by simp⟩
      | null => rw [hm1] at h; exact absurd h ha
      | bool b => exact ⟨.bool b, h, by simp, by simp⟩
      | int n => exact ⟨.int n, h, by simp, by simp⟩
      | float q => exact ⟨.float q, h, by simp, by simp⟩
      | arr xs => exact ⟨.arr xs, h, by simp, by simp⟩
  obtain ⟨av, hav, hs, hn⟩ := step2
  refine ⟨av, ?_, hs, hn⟩
  simp only [normalizeMetadata]
  exact objGet_filter_ne_null _ _ hn _ hav

/-- An object whose `globs` and `alwaysApply` bindings are present and
non-string, and whose values are all non-null, is a fixed point of the
normalization step. -/
theorem normalizeMetadata_fixed (o : MetaObj)
    (hg : ∃ gv, objGet o (str "globs") = some gv ∧ ∀ s, gv ≠ .str s)
    (ha : ∃ av, objGet o (str "alwaysApply") = some av ∧ ∀ s, av ≠ .str s)
    (hnn : ∀ kv ∈ o, kv.2 ≠ MetaValue.null) :
    normalizeMetadata o = o := by
  obtain ⟨gv, hgv, hgs⟩ := hg
  obtain ⟨av, hav, has⟩ := ha
  have h1 : (match objGet o (str "globs") with
      | none => objSet o (str "globs") (.arr [])
      | some (.str s) =>
        objSet o (str "globs") (if trimS s = [] then .arr [] else .arr [s])
      | some _ => o) = o := by
    rw [hgv]
    cases gv with
    | str s => exact absurd rfl (hgs s)
    | bool b => rfl
    | int n => rfl
    | float q => rfl
    | arr xs => rfl
    | null => rfl
  have h2 : (match objGet o (str "alwaysApply") with
      | none => objSet o (str "alwaysApply") (.bool false)
      | some (.str s) => objSet o (str "alwaysApply") (.bool (toLowerS s = str "true"))
      | some _ => o) = o := by
    rw [hav]
    cases av with
    | str s => exact absurd rfl (has s)
    | bool b => rfl
    | int n => rfl
    | float q => rfl
    | arr xs => rfl
    | null => rfl
  simp only [normalizeMetadata]
  rw [h1, h2]
  exact List.filter_eq_self.mpr (fun kv hkv => by
    cases hkv2 : kv.2 <;> simp [isNullV]
    exact hnn kv hkv hkv2)

/-- C9 (counterexample): normalizing the normalization of `{globs: null}` is
not a no-op — the cleanup removes the null `globs`, and a second pass
re-inserts the default empty array. -/
theorem c9_normalization_idempotence_counterexample :
    normalizeMetadata (normalizeMetadata [(str "globs", MetaValue.null)]) ≠
      normalizeMetadata [(str "globs", MetaValue.null)] := by decide

/-- C9 (amended): the normalization step is idempotent on every metadata map
whose `globs` and `alwaysApply` keys are not bound to null; when one of them
is null, the cleanup deletes the key and a second application re-inserts its
default, breaking idempotence. -/
theorem c9_normalization_idempotent (md : MetaObj)
    (hg : objGet md (str "globs") ≠ some .null)
    (ha : objGet md (str "alwaysApply") ≠ some .null) :
    normalizeMetadata (normalizeMetadata md) = normalizeMetadata md := by
  obtain ⟨gv, hgv, hgs, _⟩ := normalizeMetadata_globs md hg
  obtain ⟨av, hav, has, _⟩ := normalizeMetadata_alwaysApply md ha
  exact normalizeMetadata_fixed _ ⟨gv, hgv, hgs⟩ ⟨av, hav, has⟩
    (normalizeMetadata_no_null md)

/-- C9 witness: idempotence at a concrete map with a string `globs` and a
boolean `alwaysApply`. -/
theorem c9_normalization_idempotent_witness :
    normalizeMetadata (normalizeMetadata
      [(str "globs", MetaValue.str (str "src")), (str "alwaysApply", MetaValue.bool true)]) =
    normalizeMetadata
      [(str "globs", MetaValue.str (str "src")), (str "alwaysApply", MetaValue.bool true)] :=
  c9_normalization_idempotent _ (by decide) (by decide)

/-! ### C10 — sidebar position extraction -/

/-- C10: a `sidebar_position` bound to the number 0 is falsy, so extraction
falls back to `sidebarPosition` (yielding no position when that key is
absent); a truthy `sidebar_position` always takes precedence. -/
theorem c10_sidebar_position_zero :
    (∀ md, objGet md (str "sidebar_position") = some (.int 0) →
      extractSidebarPosition md = coercePosition (objGet md (str "sidebarPosition"))) ∧
    (∀ md, objGet md (str "sidebar_position") = some (.int 0) →
      objGet md (str "sidebarPosition") = none →
      extractSidebarPosition md = none) ∧
    (∀ md v, objGet md (str "sidebar_position") = some v → jsTruthy v = true →
      extractSidebarPosition md = coercePosition (some v)) := by
  refine ⟨fun md h => ?_, fun md h h2 => ?_, fun md v h ht => ?_⟩
  · unfold extractSidebarPosition
    rw [h]
    simp [jsTruthy]
  · unfold extractSidebarPosition
    rw [h]
    simp [jsTruthy, h2, coercePosition]
  · unfold extractSidebarPosition
    rw [h]
    show coercePosition (if jsTruthy v = true then some v
      else objGet md (str "sidebarPosition")) = coercePosition (some v)
    rw [if_pos ht]

/-- C10 witness: `sidebar_position: 0` falls back to `sidebarPosition: 5`;
a truthy string `sidebar_position: "7"` takes precedence. -/
theorem c10_sidebar_position_zero_witness :
    extractSidebarPosition [(str "sidebar_position", MetaValue.int 0),
      (str "sidebarPosition", MetaValue.int 5)] =
      coercePosition (objGet [(str "sidebar_position", MetaValue.int 0),
        (str "sidebarPosition", MetaValue.int 5)] (str "sidebarPosition")) ∧
    extractSidebarPosition [(str "sidebar_position", MetaValue.str (str "7")),
      (str "sidebarPosition", MetaValue.int 5)] =
      coercePosition (some (MetaValue.str (str "7"))) :=
  ⟨c10_sidebar_position_zero.1 _ (by decide),
   c10_sidebar_position_zero.2.2 _ _ (by decide) (by decide)⟩

end MdcRules
